import Mathlib

/-!
jluna: boxing and exception forwarding.

A shallow embedding of `.src/exceptions.cpp` and `.src/box.inl`.

The embedded Julia runtime is global mutable state in the C++ program.  Here it
is an explicit `State` that every operation receives and returns, together
with a trace of the entry points of the runtime that were used, in order.  A
C++ exception in flight is the `Except.error` branch of a result; the state is
returned on that branch too, because it is what the stack unwinding leaves
behind.

`box<T>` is a family of overloads selected at compile time by `T`.  Each
overload is one definition here (`box_bool`, `box_int`, `box_string`, ...).
An overload for a container calls `box<Value_t>` on the elements; that
instance is a parameter of the definition.  The overloads for `char` and for
callables go through helpers that are not in these two files and are left out.
-/

namespace jluna

/-! ## Data model -/

/-- The eight fixed-width integer types that have a `box` overload. -/
inductive IntType
  | uint8 | uint16 | uint32 | uint64 | int8 | int16 | int32 | int64
  deriving DecidableEq, Repr

/-- Width in bits. -/
def IntType.bits : IntType → Nat
  | .uint8 | .int8 => 8
  | .uint16 | .int16 => 16
  | .uint32 | .int32 => 32
  | .uint64 | .int64 => 64

/-- The name of the type, as in `jl_box_uint8`. -/
def IntType.name : IntType → String
  | .uint8 => "uint8"
  | .uint16 => "uint16"
  | .uint32 => "uint32"
  | .uint64 => "uint64"
  | .int8 => "int8"
  | .int16 => "int16"
  | .int32 => "int32"
  | .int64 => "int64"

/-- Signedness. -/
def IntType.signed : IntType → Bool
  | .uint8 | .uint16 | .uint32 | .uint64 => false
  | .int8 | .int16 | .int32 | .int64 => true

/-- The values of the type `T`. -/
def IntType.InRange (T : IntType) (v : Int) : Prop :=
  if T.signed then -(2 : Int) ^ (T.bits - 1) ≤ v ∧ v < (2 : Int) ^ (T.bits - 1)
  else 0 ≤ v ∧ v < (2 : Int) ^ T.bits

instance (T : IntType) (v : Int) : Decidable (T.InRange v) := by
  unfold IntType.InRange; infer_instance

/-- The C++ conversion `(T) value`: the value modulo `2 ^ bits`, taken in the
range of `T`. -/
def IntType.cast (T : IntType) (v : Int) : Int :=
  if T.signed then
    (v + (2 : Int) ^ (T.bits - 1)) % (2 : Int) ^ T.bits - (2 : Int) ^ (T.bits - 1)
  else v % (2 : Int) ^ T.bits

/-- What `to_julia_type<T>::type()` returns: the tag of the Julia type that
corresponds to the native type `T`. -/
inductive TypeDescriptor
  | bool | char | int (T : IntType) | float32 | float64 | string | any
  | complex (t : TypeDescriptor)
  | vector (t : TypeDescriptor)
  | dict (k v : TypeDescriptor)
  | set (t : TypeDescriptor)
  | pair (a b : TypeDescriptor)
  deriving DecidableEq, Repr

mutual
/-- What a `jl_value_t*` (`unsafe::Value*`) points to.  Immutable Julia values
are compared by content, so they are the value itself; a `Dict` or a `Set` is
mutable and is a reference `ref addr` to a cell of the runtime heap.  `null` is
the null pointer.  `type` and `size` are the two kinds of argument that the
container constructors receive besides values. -/
inductive Value
  | null
  | bool (b : Bool)
  | int (T : IntType) (v : Int)
  | float32 (bits : Nat)
  | float64 (bits : Nat)
  | array (eltype : TypeDescriptor) (data : List Int)
  | string (s : String)
  | symbol (name : String)
  | function (module name : String)
  | type (t : TypeDescriptor)
  | size (n : Nat)
  | struct (type : Value) (fields : Fields)
  | ref (addr : Nat)
  deriving DecidableEq, Repr
/-- The fields of a struct value, in order. -/
inductive Fields
  | nil
  | cons (head : Value) (tail : Fields)
  deriving DecidableEq, Repr
end

/-- The fields of a struct from a list of values. -/
def Fields.ofList : List Value → Fields
  | [] => .nil
  | v :: vs => .cons v (Fields.ofList vs)

/-- A mutable container on the runtime heap. -/
inductive Object
  | dict (K V : TypeDescriptor) (entries : List (Value × Value))
  | set (T : TypeDescriptor) (elements : List Value)
  deriving DecidableEq, Repr

/-- One use of an entry point of the runtime. -/
inductive Event
  | jl_is_initialized
  | jl_exception_occurred
  | jl_call (function : Value) (args : List Value)
  | jl_quote (code : String)
  | api (name : String)
  deriving DecidableEq, Repr

/-- The state of the process that the two files read and write.
`initialized` is the `static bool initialized` of `throw_if_uninitialized`;
`ready` is what `jl_is_initialized()` answers; `exception` is the runtime's
last-exception slot (`null` when empty); `sentinels` is the number of live
`GCSentinel` objects; `trace` lists the runtime entry points used so far. -/
structure State where
  initialized : Bool
  ready : Bool
  exception : Value
  heap : List Object
  sentinels : Nat
  trace : List Event
  deriving DecidableEq, Repr

/-- `class JuliaException`: the raw exception value and the message. -/
structure JuliaException where
  _value : Value
  _message : String
  deriving DecidableEq, Repr

/-- The constructor `JuliaException::JuliaException(exception, stacktrace)`. -/
def JuliaException.new (exception : Value) (stacktrace : String) : JuliaException :=
  { _value := exception, _message := "[JULIA][EXCEPTION] " ++ stacktrace }

/-- `JuliaException::what()`. -/
def JuliaException.what (e : JuliaException) : String := e._message

/-- `JuliaException::operator unsafe::Value*()`. -/
def JuliaException.value (e : JuliaException) : Value := e._value

/-- `JuliaUninitializedException::what()`. -/
def JuliaUninitializedException.what : String :=
  "[C++][ERROR] jluna and julia need to be initialized using jluna::initialize() before usage"

/-- A C++ exception thrown by this layer. -/
inductive Thrown
  | JuliaException (e : jluna.JuliaException)
  | JuliaUninitializedException
  deriving DecidableEq, Repr

deriving instance DecidableEq for Except

/-- A computation of the layer: it reads and writes the state and either
returns a value or throws. -/
def Jl (α : Type) : Type := State → Except Thrown α × State

/-- Return without touching the state. -/
def Jl.pure {α : Type} (a : α) : Jl α := fun s => (.ok a, s)

/-- Sequencing: a throw of the first computation skips the second. -/
def Jl.bind {α β : Type} (x : Jl α) (f : α → Jl β) : Jl β := fun s =>
  match x s with
  | (.ok a, s1) => f a s1
  | (.error e, s1) => (.error e, s1)

/-- The C++ `throw`. -/
def Jl.throw {α : Type} (e : Thrown) : Jl α := fun s => (.error e, s)

instance : Monad Jl where
  pure := Jl.pure
  bind := Jl.bind

/-- Record one use of a runtime entry point. -/
def State.log (s : State) (e : Event) : State := { s with trace := s.trace ++ [e] }

/-- The behaviour of the embedded runtime that the layer relies on and that is
defined outside these two files: what a Julia function does when applied
(`apply`: a result or a raised exception value, and the heap afterwards), the
parser, and the field accessors of the C API. -/
structure Julia where
  apply : Value → List Value → List Object → Except Value Value × List Object
  parse : String → Except Value Value
  jl_typeof_str : Value → String
  jl_get_nth_field : Value → Nat → Value
  jl_set_nth_field : Value → Nat → Value → Value
  jl_string_ptr : Value → String
  jl_apply_tuple_type_v : List Value → Value

/-! ## The C API of the runtime -/

/-- `jl_is_initialized()`. -/
def jl_is_initialized : Jl Bool := fun s => (.ok s.ready, s.log .jl_is_initialized)

/-- `jl_exception_occurred()`: the content of the last-exception slot. -/
def jl_exception_occurred : Jl Value := fun s => (.ok s.exception, s.log .jl_exception_occurred)

/-- `jl_call(f, args, nargs)` of the C API: apply `f`; on success the slot is
cleared and the result returned, on a raised exception the exception is left
in the slot and the result is null. -/
def jl_call (rt : Julia) (f : Value) (args : List Value) : Jl Value := fun s =>
  match rt.apply f args s.heap with
  | (.ok v, h) =>
      (.ok v, { s with heap := h, exception := .null, trace := s.trace ++ [.jl_call f args] })
  | (.error e, h) =>
      (.ok .null, { s with heap := h, exception := e, trace := s.trace ++ [.jl_call f args] })

/-- `jl_box_bool`. -/
def jl_box_bool (b : Bool) : Jl Value := fun s => (.ok (.bool b), s.log (.api "jl_box_bool"))

/-- `jl_box_uint8` ... `jl_box_int64`: the scalar box of type `T` holding `v`. -/
def jl_box_int (T : IntType) (v : Int) : Jl Value := fun s =>
  (.ok (.int T v), s.log (.api ("jl_box_" ++ T.name)))

/-- `jl_box_float32`, on the bit pattern of the float. -/
def jl_box_float32 (bits : Nat) : Jl Value := fun s =>
  (.ok (.float32 bits), s.log (.api "jl_box_float32"))

/-- `jl_box_float64`, on the bit pattern of the double. -/
def jl_box_float64 (bits : Nat) : Jl Value := fun s =>
  (.ok (.float64 bits), s.log (.api "jl_box_float64"))

/-- `jl_array_to_string`: the string whose characters are the array's data. -/
def jl_array_to_string (array : Value) : Jl Value := fun s =>
  match array with
  | .array _ data =>
      (.ok (.string (String.mk (data.map fun i => Char.ofNat i.toNat))),
        s.log (.api "jl_array_to_string"))
  | _ => (.ok .null, s.log (.api "jl_array_to_string"))

/-- `jl_pair_type`. -/
def jl_pair_type : Value := .type (.pair .any .any)

/-- `jl_new_struct(type, a, b)`. -/
def jl_new_struct (type a b : Value) : Jl Value := fun s =>
  (.ok (.struct type (.cons a (.cons b .nil))), s.log (.api "jl_new_struct"))

/-- `jl_apply_tuple_type_v(args, n)`. -/
def jl_apply_tuple_type_v (rt : Julia) (args : List Value) : Jl Value := fun s =>
  (.ok (rt.jl_apply_tuple_type_v args), s.log (.api "jl_apply_tuple_type_v"))

/-- `jl_new_structv(type, args, n)`. -/
def jl_new_structv (type : Value) (args : List Value) : Jl Value := fun s =>
  (.ok (.struct type (Fields.ofList args)), s.log (.api "jl_new_structv"))

/-! ## `.src/exceptions.cpp` -/

/-- Read the `static bool initialized` of `throw_if_uninitialized`. -/
def read_initialized : Jl Bool := fun s => (.ok s.initialized, s)

/-- Assign the `static bool initialized` of `throw_if_uninitialized`. -/
def write_initialized (b : Bool) : Jl Unit := fun s => (.ok (), { s with initialized := b })

/-- `void throw_if_uninitialized()`. -/
def throw_if_uninitialized : Jl Unit := do
  let initialized ← read_initialized
  if initialized then
    pure ()
  else
    let ready ← jl_is_initialized
    if !ready then
      Jl.throw .JuliaUninitializedException
    else
      write_initialized true

/-- `void forward_last_exception()`. -/
def forward_last_exception (rt : Julia) : Jl Unit := do
  throw_if_uninitialized
  let exc ← jl_exception_occurred
  if exc ≠ .null then
    Jl.throw (.JuliaException
      (JuliaException.new exc (rt.jl_string_ptr (rt.jl_get_nth_field exc 0))))

/-- Modelled from the spec: `unsafe::get_function(module, name)` of
`include/unsafe_utilities.hpp`, which is not part of the two files: "a
function/value lookup by (namespace-symbol, name-symbol) pair".  Every use is
the initialiser of a function-local `static`, so the handle is a constant of
the overload; the lookup itself is not traced. -/
def unsafe_get_function (module name : String) : Value := .function module name

/-- Modelled from the spec: `unsafe::call(function, args...)` of
`include/unsafe_utilities.hpp`, which is not part of the two files.  The spec
gives the check of the last-exception slot to `safe_call` ("invokes the
foreign function with the given opaque arguments, then immediately performs
the Exception Capture check"); `unsafe::call` is the first half on its own, the
invocation through `jl_call`. -/
def unsafe_call (rt : Julia) (function : Value) (args : List Value) : Jl Value :=
  jl_call rt function args

/-- Modelled from the spec: `safe_call(function, args...)`, declared outside
the two files: "invokes the foreign function with the given opaque arguments,
then immediately performs the Exception Capture check, returning the opaque
result only if no exception occurred". -/
def safe_call (rt : Julia) (function : Value) (args : List Value) : Jl Value := do
  let result ← jl_call rt function args
  forward_last_exception rt
  pure result

/-- Modelled from the spec: `jl_quote(code)` of `include/julia_extension.hpp`,
which is not part of the two files: it "parses/quotes the source fragment in
the foreign runtime; a parse failure is itself captured via the same exception
path", so a failure returns null and leaves the exception in the slot. -/
def jl_quote (rt : Julia) (code : String) : Jl Value := fun s =>
  match rt.parse code with
  | .ok q => (.ok q, { s with exception := .null, trace := s.trace ++ [.jl_quote code] })
  | .error e => (.ok .null, { s with exception := e, trace := s.trace ++ [.jl_quote code] })

/-- `unsafe::Value* safe_eval(const std::string& code, unsafe::Module* module)`. -/
def safe_eval (rt : Julia) (code : String) (module : Value) : Jl Value := do
  let eval := unsafe_get_function "Base" "eval"
  let quote ← jl_quote rt code
  if quote = .null then
    let exc ← jl_exception_occurred
    let str := "In jluna::safe_eval: " ++ rt.jl_typeof_str exc ++ " in expression\n\t" ++ code
      ++ "\n" ++ rt.jl_string_ptr (rt.jl_get_nth_field exc 0) ++ "\n"
    Jl.throw (.JuliaException (JuliaException.new exc str))
  else
    safe_call rt eval [module, rt.jl_set_nth_field quote 0 (.symbol "toplevel")]

/-! ## `.src/box.inl` -/

/-- Modelled from the spec: `GCSentinel` of `include/gc_sentinel.hpp`, which is
not part of the two files: "a stack-discipline rooting token", released "on
every exit path (normal return or a raised error)".  `auto gc = GCSentinel();`
opens a scope that lasts to the end of the function body: the constructor
adds one live sentinel, the destructor removes it when the body returns or
throws. -/
def GCSentinel.scope {α : Type} (body : Jl α) : Jl α := fun s =>
  match body { s with sentinels := s.sentinels + 1 } with
  | (r, s1) => (r, { s1 with sentinels := s1.sentinels - 1 })

/-- Modelled from the spec: `unsafe::new_array_from_data(type, data, size)` of
`include/unsafe_utilities.hpp`, which is not part of the two files: "a
zero-copy foreign array construction directly over the buffer".  The buffer
`data` is given by the numbers stored in it; the array is over its first `size`
elements. -/
def unsafe_new_array_from_data (type : TypeDescriptor) (data : List Int) (size : Nat) :
    Jl Value := fun s =>
  (.ok (.array type (data.take size)), s.log (.api "new_array_from_data"))

/-- `value.data()` of a `std::string`, as the buffer of its characters. -/
def string_data (value : String) : List Int := value.toList.map fun c => (c.toNat : Int)

/-- `value.size()` of a `std::string`. -/
def string_size (value : String) : Nat := value.length

/-- `box` for `IsJuliaValuePointer T`. -/
def box_value (value : Value) : Jl Value := pure value

/-- `box` for `bool`. -/
def box_bool (value : Bool) : Jl Value := jl_box_bool value

/-- `box` for `std::bool_constant<true>`. -/
def box_true_constant : Jl Value := jl_box_bool true

/-- `box` for `std::bool_constant<false>`. -/
def box_false_constant : Jl Value := jl_box_bool false

/-- `box` for `uint8_t` ... `int64_t`: `jl_box_T((T) value)`. -/
def box_int (T : IntType) (value : Int) : Jl Value := jl_box_int T (T.cast value)

/-- `box` for `float`. -/
def box_float (value : Nat) : Jl Value := jl_box_float32 value

/-- `box` for `double`. -/
def box_double (value : Nat) : Jl Value := jl_box_float64 value

/-- `box` for `std::string`. -/
def box_string (value : String) : Jl Value :=
  GCSentinel.scope do
    let array ← unsafe_new_array_from_data .char (string_data value) (string_size value)
    jl_array_to_string array

/-- `box` for `const char*`; the argument is the text up to the terminator. -/
def box_c_str (value : String) : Jl Value :=
  GCSentinel.scope do
    let as_string := value
    let array ← unsafe_new_array_from_data .char (string_data as_string) (string_size as_string)
    jl_array_to_string array

/-- `box` for `std::complex<Value_t>`; `box_Value_t` is `box<Value_t>`.  The two
arguments are boxed left to right. -/
def box_complex {α : Type} (rt : Julia) (box_Value_t : α → Jl Value) (real imag : α) :
    Jl Value := do
  let complex := unsafe_get_function "jluna" "make_complex"
  let re ← box_Value_t real
  let im ← box_Value_t imag
  safe_call rt complex [re, im]

/-- `box` for `std::vector<Value_t>`; `Value_t` is `to_julia_type<Value_t>::type()`. -/
def box_vector (Value_t : TypeDescriptor) (value : List Int) : Jl Value :=
  unsafe_new_array_from_data Value_t value value.length

/-- The loop `for (auto& pair : value)` of the map overload.  The two arguments
of the call are boxed left to right. -/
def box_map_loop {κ α : Type} (rt : Julia) (setindex : Value) (box_Key_t : κ → Jl Value)
    (box_Value_t : α → Jl Value) : List (κ × α) → Jl Unit
  | [] => pure ()
  | pair :: rest => do
      let second ← box_Value_t pair.2
      let first ← box_Key_t pair.1
      let _ ← unsafe_call rt setindex [second, first]
      box_map_loop rt setindex box_Key_t box_Value_t rest

/-- `box` for `std::map<Key_t, Value_t>` and `std::unordered_map<Key_t, Value_t>`;
`value` lists the pairs in iteration order. -/
def box_map {κ α : Type} (rt : Julia) (Key_t Value_t : TypeDescriptor)
    (box_Key_t : κ → Jl Value) (box_Value_t : α → Jl Value) (value : List (κ × α)) :
    Jl Value :=
  let new_dict := unsafe_get_function "jluna" "new_dict"
  let setindex := unsafe_get_function "Base" "setindex!"
  GCSentinel.scope do
    let out ← unsafe_call rt new_dict [.type Key_t, .type Value_t, .size value.length]
    box_map_loop rt setindex box_Key_t box_Value_t value
    pure out

/-- The loop `for (auto& e : value)` of the set overload. -/
def box_set_loop {α : Type} (rt : Julia) (push out : Value) (box_Value_t : α → Jl Value) :
    List α → Jl Unit
  | [] => pure ()
  | e :: rest => do
      let boxed ← box_Value_t e
      let _ ← unsafe_call rt push [out, boxed]
      box_set_loop rt push out box_Value_t rest

/-- `box` for `std::set<Value_t>`; `value` lists the elements in iteration order. -/
def box_set {α : Type} (rt : Julia) (Value_t : TypeDescriptor) (box_Value_t : α → Jl Value)
    (value : List α) : Jl Value :=
  let new_set := unsafe_get_function "jluna" "new_set"
  let push := unsafe_get_function "Base" "push!"
  GCSentinel.scope do
    let out ← unsafe_call rt new_set [.type Value_t, .size value.length]
    box_set_loop rt push out box_Value_t value
    pure out

/-- `box` for `std::pair<T1, T2>`; `first` and `second` are `box<T1>(value.first)`
and `box<T2>(value.second)`, evaluated left to right. -/
def box_pair (first second : Jl Value) : Jl Value := do
  let a ← first
  let b ← second
  jl_new_struct jl_pair_type a b

/-- The fold `(args.push_back(box<decltype(elements)>(elements)), ...)` of the
tuple overload: each element of `elements` is `box<decltype(e)>(e)`. -/
def box_tuple_args : List (Jl Value) → List Value → Jl (List Value)
  | [], args => pure args
  | element :: rest, args => do
      let boxed ← element
      box_tuple_args rest (args ++ [boxed])

/-- `box` for `IsTuple T`. -/
def box_tuple (rt : Julia) (elements : List (Jl Value)) : Jl Value :=
  GCSentinel.scope do
    let args ← box_tuple_args elements []
    let tuple_t ← jl_apply_tuple_type_v rt args
    jl_new_structv tuple_t args

/-- Modelled from the spec: `unbox<T>` for the fixed-width integers, the
"unboxing collaborator" that is not part of the two files: it reads the
number back from a scalar box of the same width and signedness. -/
def unbox_int (T : IntType) : Value → Option Int
  | .int U v => if U = T then some v else none
  | _ => none

/-! ## A runtime to run the layer against -/

/-- The exception Julia raises when no method of `f` accepts `args`: its
fields are the function and the tuple of arguments. -/
def MethodError (f : Value) (args : List Value) : Value :=
  .struct (.symbol "MethodError")
    (.cons f (.cons (.struct (.symbol "Tuple") (Fields.ofList args)) .nil))

/-- `d[k] = v` on the entries of a `Dict`: the value of an existing key is
replaced, a new key is added. -/
def dict_insert (entries : List (Value × Value)) (v k : Value) : List (Value × Value) :=
  if entries.any (fun p => p.1 = k) then entries.map (fun p => if p.1 = k then (k, v) else p)
  else entries ++ [(k, v)]

/-- `push!` on the elements of a `Set`: an element already present is not added. -/
def set_insert (elements : List Value) (x : Value) : List Value :=
  if x ∈ elements then elements else elements ++ [x]

/-- Modelled from the spec: the Julia functions that boxing calls, which are
not part of the two files.  `jluna.new_dict(K, V, n)` and `jluna.new_set(T, n)`
construct "a typed empty foreign dictionary (keyed by the resolved key/value
TypeDescriptors) sized to the native map's count" and "a typed empty foreign
set"; `jluna.make_complex(re, im)` is the "make-complex constructor";
`Base.setindex!(d, v, k)` and `Base.push!(s, x)` are the "set-index" and "push"
functions of Julia on a `Dict` and a `Set`; `Base.eval(module, expr)` returns
the literal of a quoted literal.  Any other application has no method and
raises a `MethodError`. -/
def julia_apply (f : Value) (args : List Value) (heap : List Object) :
    Except Value Value × List Object :=
  if f = .function "jluna" "new_dict" then
    match args with
    | [.type K, .type V, .size _] => (.ok (.ref heap.length), heap ++ [.dict K V []])
    | _ => (.error (MethodError f args), heap)
  else if f = .function "jluna" "new_set" then
    match args with
    | [.type T, .size _] => (.ok (.ref heap.length), heap ++ [.set T []])
    | _ => (.error (MethodError f args), heap)
  else if f = .function "jluna" "make_complex" then
    match args with
    | [re, im] => (.ok (.struct (.symbol "Complex") (.cons re (.cons im .nil))), heap)
    | _ => (.error (MethodError f args), heap)
  else if f = .function "Base" "setindex!" then
    match args with
    | [.ref d, v, k] =>
        match heap[d]? with
        | some (.dict K V entries) =>
            (.ok (.ref d), heap.set d (.dict K V (dict_insert entries v k)))
        | _ => (.error (MethodError f args), heap)
    | _ => (.error (MethodError f args), heap)
  else if f = .function "Base" "push!" then
    match args with
    | [.ref a, x] =>
        match heap[a]? with
        | some (.set T elements) => (.ok (.ref a), heap.set a (.set T (set_insert elements x)))
        | _ => (.error (MethodError f args), heap)
    | _ => (.error (MethodError f args), heap)
  else if f = .function "Base" "eval" then
    match args with
    | [_, .struct (.symbol "Expr") (.cons _ (.cons v .nil))] => (.ok v, heap)
    | _ => (.error (MethodError f args), heap)
  else (.error (MethodError f args), heap)

/-- The `n`-th field of a struct; null when there is none. -/
def Fields.get : Fields → Nat → Value
  | .nil, _ => .null
  | .cons v _, 0 => v
  | .cons _ vs, n + 1 => vs.get n

/-- Replace the `n`-th field of a struct. -/
def Fields.set : Fields → Nat → Value → Fields
  | .nil, _, _ => .nil
  | .cons _ vs, 0, x => .cons x vs
  | .cons v vs, n + 1, x => .cons v (vs.set n x)

/-- A runtime to evaluate the layer on concrete inputs: the functions of
`julia_apply`, field access on structs, and a parser that accepts unsigned
decimal literals and raises an `ErrorException("syntax: ...")` on any other
text. -/
def Julia.model : Julia where
  apply := julia_apply
  parse := fun code =>
    if code.data ≠ [] ∧ code.data.all Char.isDigit = true then
      .ok (.struct (.symbol "Expr") (.cons (.symbol "quote")
        (.cons (.int .int64 (code.data.foldl (fun n c => 10 * n + ((c.toNat : Int) - 48)) 0))
          .nil)))
    else
      .error (.struct (.symbol "ErrorException") (.cons (.string ("syntax: " ++ code)) .nil))
  jl_typeof_str := fun v =>
    match v with
    | .struct (.symbol name) _ => name
    | _ => ""
  jl_get_nth_field := fun v n =>
    match v with
    | .struct _ fields => fields.get n
    | _ => .null
  jl_set_nth_field := fun v n x =>
    match v with
    | .struct t fields => .struct t (fields.set n x)
    | _ => v
  jl_string_ptr := fun v =>
    match v with
    | .string s => s
    | _ => ""
  jl_apply_tuple_type_v := fun _ => .symbol "Tuple"

/-- The lookup `d[k]` in a foreign dict. -/
def dict_lookup (heap : List Object) (d k : Value) : Option Value :=
  match d with
  | .ref a =>
      match heap[a]? with
      | some (.dict _ _ entries) => (entries.find? (fun p => p.1 = k)).map (fun p => p.2)
      | _ => none
  | _ => none

/-- A process in which nothing has happened yet; `ready` is the answer of the
runtime to the readiness query. -/
def State.start (ready : Bool) : State :=
  { initialized := false, ready := ready, exception := .null, heap := [], sentinels := 0,
    trace := [] }

/-- One call of `throw_if_uninitialized` in a sequence of calls: the state it
started from, how it ended, and the state it left. -/
structure Step where
  before : State
  result : Except Thrown Unit
  after : State

/-- A sequence of calls of `throw_if_uninitialized`; the `i`-th call finds the
runtime answering `answers[i]` to the readiness query. -/
def run_checks : List Bool → State → List Step
  | [], _ => []
  | a :: rest, s =>
      let r := throw_if_uninitialized { s with ready := a }
      { before := { s with ready := a }, result := r.1, after := r.2 } :: run_checks rest r.2

/-- The number of queries of the last-exception slot in a trace. -/
def queries (trace : List Event) : Nat := trace.count .jl_exception_occurred

/-- The computation returns normally from every state and makes no query of
the last-exception slot. -/
def ReturnsUnchecked {α : Type} (x : Jl α) : Prop :=
  ∀ s, (∃ v, (x s).1 = .ok v) ∧ queries (x s).2.trace = queries s.trace

/-- The state after `make_complex(re, im)` has raised `exc` in `s`, leaving the
heap `heap`. -/
def raised (s : State) (heap : List Object) (exc re im : Value) : State :=
  { s with
    heap := heap
    exception := exc
    trace := s.trace ++ [.jl_call (.function "jluna" "make_complex") [re, im]] }

/-- The event is a call whose first argument is `out`. -/
def Event.targets (out : Value) : Event → Bool
  | .jl_call _ (first :: _) => decide (first = out)
  | _ => false

/-- What the set overload needs from `box<Value_t>`: from a state in which the
runtime is ready it returns normally and leaves the runtime ready; the
containers that exist when it starts are the same when it returns; and none
of its calls has one of them as first argument. -/
def BoxesCleanly {α : Type} (box_Value_t : α → Jl Value) : Prop :=
  ∀ e s, s.ready = true →
    ∃ (v : Value) (s1 : State) (new : List Event),
      box_Value_t e s = (.ok v, s1) ∧ s1.ready = true ∧
      s.heap.length ≤ s1.heap.length ∧
      (∀ a, a < s.heap.length → s1.heap[a]? = s.heap[a]?) ∧
      s1.trace = s.trace ++ new ∧
      ∀ a, a < s.heap.length → ∀ ev ∈ new, Event.targets (.ref a) ev = false

/-- The state inside the scope of the set overload after its `new_set` call
has returned, against the model runtime. -/
def State.in_box_set (s : State) (Value_t : TypeDescriptor) (size : Nat) : State :=
  { s with
    sentinels := s.sentinels + 1
    heap := s.heap ++ [.set Value_t []]
    exception := .null
    trace := s.trace ++ [.jl_call (.function "jluna" "new_set") [.type Value_t, .size size]] }

/-- The number of live sentinels is the same before and after. -/
def KeepsSentinels {α : Type} (x : Jl α) : Prop := ∀ s, (x s).2.sentinels = s.sentinels

end jluna

namespace jluna

/-! ## Sequencing -/

@[simp] theorem Jl.pure_apply {α : Type} (a : α) (s : State) :
    (Pure.pure a : Jl α) s = (.ok a, s) := rfl

@[simp] theorem Jl.bind_apply {α β : Type} (x : Jl α) (f : α → Jl β) (s : State) :
    (x >>= f) s = match x s with
      | (.ok a, s1) => f a s1
      | (.error e, s1) => (.error e, s1) := rfl

@[simp] theorem Jl.throw_apply {α : Type} (e : Thrown) (s : State) :
    (Jl.throw e : Jl α) s = (.error e, s) := rfl

/-! ## `throw_if_uninitialized` -/

theorem throw_if_uninitialized_of_initialized (s : State) (h : s.initialized = true) :
    throw_if_uninitialized s = (.ok (), s) := by
  simp [throw_if_uninitialized, read_initialized, h]

theorem throw_if_uninitialized_of_not_ready (s : State) (h : s.initialized = false)
    (hr : s.ready = false) :
    throw_if_uninitialized s = (.error .JuliaUninitializedException, s.log .jl_is_initialized) := by
  simp [throw_if_uninitialized, read_initialized, write_initialized, h, jl_is_initialized, hr]

theorem throw_if_uninitialized_of_ready (s : State) (h : s.initialized = false)
    (hr : s.ready = true) :
    throw_if_uninitialized s
      = (.ok (), { s.log .jl_is_initialized with initialized := true }) := by
  simp [throw_if_uninitialized, read_initialized, write_initialized, h, jl_is_initialized, hr]

theorem throw_if_uninitialized_flag (s : State) :
    (throw_if_uninitialized s).2.initialized
      = match (throw_if_uninitialized s).1 with
        | .ok _ => true
        | .error _ => false := by
  cases h : s.initialized
  · cases hr : s.ready
    · rw [throw_if_uninitialized_of_not_ready s h hr]; simp [State.log, h]
    · rw [throw_if_uninitialized_of_ready s h hr]
  · rw [throw_if_uninitialized_of_initialized s h]; simp [h]

theorem run_checks_of_initialized (answers : List Bool) :
    ∀ s : State, s.initialized = true → ∀ st ∈ run_checks answers s,
      st.result = .ok () ∧ st.after = st.before ∧ st.before.initialized = true := by
  induction answers with
  | nil => intro s _ st hst; simp [run_checks] at hst
  | cons a rest ih =>
      intro s h st hst
      have h1 : ({ s with ready := a } : State).initialized = true := h
      simp only [run_checks, throw_if_uninitialized_of_initialized _ h1, List.mem_cons] at hst
      rcases hst with rfl | hst
      · exact ⟨rfl, rfl, h⟩
      · exact ih _ h1 st hst

/-- C5: over every sequence of calls of `throw_if_uninitialized`, whatever the
runtime answers to each readiness query (between two calls nothing but that
answer changes): a call that starts with the flag set leaves it set, and so
does every later call; a call that fails leaves the flag unset; and after one
call has succeeded every later call returns normally and leaves the state as
it found it, so it made no query. -/
theorem readiness_only_moves_forward (answers : List Bool) (s : State) :
    (∀ (i : Nat) (st_i st_j : Step), (run_checks answers s)[i]? = some st_i →
      (run_checks answers s)[i + 1]? = some st_j →
      st_j.before = { st_i.after with ready := st_j.before.ready }) ∧
    (∀ (i j : Nat) (st_i st_j : Step), i ≤ j → (run_checks answers s)[i]? = some st_i →
      (run_checks answers s)[j]? = some st_j →
      st_i.before.initialized = true → st_j.after.initialized = true) ∧
    (∀ st ∈ run_checks answers s, st.result ≠ .ok () → st.after.initialized = false) ∧
    (∀ (i j : Nat) (st_i st_j : Step), i < j → (run_checks answers s)[i]? = some st_i →
      (run_checks answers s)[j]? = some st_j →
      st_i.result = .ok () → st_j.result = .ok () ∧ st_j.after = st_j.before) := by
  refine ⟨?_, ?_, ?_, ?_⟩
  · induction answers generalizing s with
    | nil => intro i st_i st_j hi; simp [run_checks] at hi
    | cons a rest ih =>
        intro i st_i st_j hi hj
        cases i with
        | zero =>
            simp only [run_checks, List.getElem?_cons_zero, Option.some.injEq] at hi
            subst hi
            cases rest with
            | nil => simp [run_checks] at hj
            | cons b rest =>
                simp only [run_checks, Nat.zero_add, List.getElem?_cons_succ,
                  List.getElem?_cons_zero, Option.some.injEq] at hj
                subst hj
                rfl
        | succ i =>
            simp only [run_checks, List.getElem?_cons_succ] at hi hj
            exact ih _ i st_i st_j hi hj
  · induction answers generalizing s with
    | nil => intro i j st_i st_j _ hi; simp [run_checks] at hi
    | cons a rest ih =>
        intro i j st_i st_j hij hi hj hinit
        cases i with
        | zero =>
            simp only [run_checks, List.getElem?_cons_zero, Option.some.injEq] at hi
            subst hi
            have h0 : s.initialized = true := hinit
            have hmem := List.getElem?_mem hj
            obtain ⟨_, h2, h3⟩ := run_checks_of_initialized (a :: rest) s h0 st_j hmem
            rw [h2]; exact h3
        | succ i =>
            cases j with
            | zero => omega
            | succ j =>
                simp only [run_checks, List.getElem?_cons_succ] at hi hj
                exact ih _ i j st_i st_j (by omega) hi hj hinit
  · induction answers generalizing s with
    | nil => intro st hst; simp [run_checks] at hst
    | cons a rest ih =>
        intro st hst hres
        simp only [run_checks, List.mem_cons] at hst
        rcases hst with rfl | hst
        · have hflag := throw_if_uninitialized_flag { s with ready := a }
          simp only at hres ⊢
          rw [hflag]
          cases hr : (throw_if_uninitialized { s with ready := a }).1 with
          | ok u => exact absurd (by rw [hr]) hres
          | error e => rfl
        · exact ih _ st hst hres
  · induction answers generalizing s with
    | nil => intro i j st_i st_j _ hi; simp [run_checks] at hi
    | cons a rest ih =>
        intro i j st_i st_j hij hi hj hok
        cases j with
        | zero => omega
        | succ j =>
            simp only [run_checks, List.getElem?_cons_succ] at hj
            cases i with
            | zero =>
                simp only [run_checks, List.getElem?_cons_zero, Option.some.injEq] at hi
                subst hi
                have hflag := throw_if_uninitialized_flag { s with ready := a }
                simp only at hok
                rw [hok] at hflag
                have hmem := List.getElem?_mem hj
                obtain ⟨h1, h2, _⟩ := run_checks_of_initialized rest _ hflag st_j hmem
                exact ⟨h1, h2⟩
            | succ i =>
                simp only [run_checks, List.getElem?_cons_succ] at hi
                exact ih _ i j st_i st_j (by omega) hi hj hok

/-- C5, on three calls that find the runtime not ready, ready, not ready: the
first fails and leaves the flag unset, the second succeeds and sets it, and the
third returns normally and leaves the state as it found it. -/
theorem readiness_only_moves_forward_witness :
    (run_checks [false, true, false] (State.start false)).map
        (fun st => (st.result, st.after.initialized))
      = [(.error .JuliaUninitializedException, false), (.ok (), true), (.ok (), true)] ∧
    ∀ st : Step, (run_checks [false, true, false] (State.start false))[2]? = some st →
      st.result = .ok () ∧ st.after = st.before :=
  ⟨by decide, fun st hst =>
    (readiness_only_moves_forward [false, true, false] (State.start false)).2.2.2 1 2 _ st
      (by decide) rfl hst rfl⟩

/-! ## `forward_last_exception` -/

theorem throw_if_uninitialized_of_runtime_ready (s : State) (hr : s.ready = true) :
    ∃ s1, throw_if_uninitialized s = (.ok (), s1) ∧ s1.exception = s.exception ∧
      s1.initialized = true := by
  cases h : s.initialized
  · exact ⟨_, throw_if_uninitialized_of_ready s h hr, rfl, rfl⟩
  · exact ⟨_, throw_if_uninitialized_of_initialized s h, rfl, h⟩

theorem forward_last_exception_of_null (rt : Julia) (s : State) (hr : s.ready = true)
    (hnull : s.exception = .null) :
    (forward_last_exception rt s).1 = .ok () ∧
      (forward_last_exception rt s).2.initialized = true := by
  obtain ⟨s1, h1, h2, h3⟩ := throw_if_uninitialized_of_runtime_ready s hr
  simp [forward_last_exception, h1, jl_exception_occurred, h2, hnull, State.log, h3]

theorem forward_last_exception_of_exception (rt : Julia) (s : State) (hr : s.ready = true)
    (hexc : s.exception ≠ .null) :
    (forward_last_exception rt s).1 = .error (.JuliaException (JuliaException.new s.exception
      (rt.jl_string_ptr (rt.jl_get_nth_field s.exception 0)))) := by
  obtain ⟨s1, h1, h2, h3⟩ := throw_if_uninitialized_of_runtime_ready s hr
  simp [forward_last_exception, h1, jl_exception_occurred, h2, hexc]

theorem message_ne_empty (stacktrace : String) :
    "[JULIA][EXCEPTION] " ++ stacktrace ≠ "" := by
  intro h
  have hl := congrArg String.length h
  simp [String.length_append] at hl
  have : ("[JULIA][EXCEPTION] ").length = 19 := by decide
  omega

/-- C1: with the runtime ready, `forward_last_exception` returns normally when
the last-exception slot is null and throws a `JuliaException` when it holds an
exception `exc`; it throws exactly when the slot is not null.  The exception
thrown carries `exc` as its raw value, and its message is
`"[JULIA][EXCEPTION] "` followed by the string of the first field of `exc`, so
it is not empty. -/
theorem forward_last_exception_raises_iff_slot_set (rt : Julia) (s : State)
    (hready : s.ready = true) :
    (s.exception = .null → (forward_last_exception rt s).1 = .ok ()) ∧
    (∀ exc, s.exception = exc → exc ≠ .null →
      ∃ e : JuliaException, (forward_last_exception rt s).1 = .error (.JuliaException e) ∧
        e.value = exc ∧
        e.what = "[JULIA][EXCEPTION] " ++ rt.jl_string_ptr (rt.jl_get_nth_field exc 0) ∧
        e.what ≠ "") ∧
    ((∃ e : JuliaException, (forward_last_exception rt s).1 = .error (.JuliaException e))
      ↔ s.exception ≠ .null) := by
  refine ⟨fun h => (forward_last_exception_of_null rt s hready h).1, ?_, ?_⟩
  · intro exc hexc hne
    subst hexc
    exact ⟨_, forward_last_exception_of_exception rt s hready hne, rfl, rfl,
      message_ne_empty _⟩
  · constructor
    · rintro ⟨e, he⟩ hnull
      rw [(forward_last_exception_of_null rt s hready hnull).1] at he
      cases he
    · intro hne
      exact ⟨_, forward_last_exception_of_exception rt s hready hne⟩

/-- C1, at a concrete state: the runtime is ready and the slot holds an
`ErrorException` whose first field is the string `"boom"`. -/
theorem forward_last_exception_raises_iff_slot_set_witness :
    (forward_last_exception Julia.model
      { State.start true with
        exception := .struct (.symbol "ErrorException") (.cons (.string "boom") .nil) }).1
      = .error (.JuliaException
          { _value := .struct (.symbol "ErrorException") (.cons (.string "boom") .nil),
            _message := "[JULIA][EXCEPTION] boom" }) := by
  obtain ⟨e, he, hv, hw, _⟩ :=
    (forward_last_exception_raises_iff_slot_set Julia.model
      { State.start true with
        exception := .struct (.symbol "ErrorException") (.cons (.string "boom") .nil) }
      rfl).2.1 _ rfl (by decide)
  rw [he]
  cases e with
  | mk v m =>
      simp only [JuliaException.value, JuliaException.what] at hv hw
      subst hv
      rw [hw]
      rfl

/-! ## Where readiness is checked -/

theorem jl_call_fields (rt : Julia) (f : Value) (args : List Value) (s : State) :
    (jl_call rt f args s).2.initialized = s.initialized ∧
    (jl_call rt f args s).2.ready = s.ready ∧
    (jl_call rt f args s).2.sentinels = s.sentinels ∧
    (jl_call rt f args s).2.trace = s.trace ++ [.jl_call f args] ∧
    ∃ v, (jl_call rt f args s).1 = .ok v := by
  unfold jl_call
  rcases h : rt.apply f args s.heap with ⟨r, hp⟩
  cases r <;> simp

/-- C7: when the parse step of `safe_eval` returns null, `safe_eval` throws a
`JuliaException` whose raw value is the content of the last-exception slot
right after the parse and whose message contains the source text; the only
uses of the runtime are the parse and the query of the slot, so `eval` is not
called. -/
theorem safe_eval_of_parse_failure (rt : Julia) (code : String) (module : Value) (s : State)
    (hquote : (jl_quote rt code s).1 = .ok .null) :
    ∃ e : JuliaException,
      (safe_eval rt code module s).1 = .error (.JuliaException e) ∧
      e.value = (jl_quote rt code s).2.exception ∧
      (∃ pre post : String, e.what = pre ++ code ++ post) ∧
      (safe_eval rt code module s).2.trace
        = s.trace ++ [.jl_quote code, .jl_exception_occurred] := by
  rcases hq : jl_quote rt code s with ⟨r, s1⟩
  rw [hq] at hquote
  simp only at hquote
  subst hquote
  have htrace : s1.trace = s.trace ++ [.jl_quote code] := by
    have : (jl_quote rt code s).2.trace = s.trace ++ [.jl_quote code] := by
      unfold jl_quote
      cases rt.parse code <;> rfl
    rw [hq] at this
    exact this
  refine ⟨JuliaException.new s1.exception
    ("In jluna::safe_eval: " ++ rt.jl_typeof_str s1.exception ++ " in expression\n\t" ++ code
      ++ "\n" ++ rt.jl_string_ptr (rt.jl_get_nth_field s1.exception 0) ++ "\n"), ?_, rfl, ?_, ?_⟩
  · simp [safe_eval, hq, jl_exception_occurred]
  · refine ⟨"[JULIA][EXCEPTION] " ++ ("In jluna::safe_eval: " ++ rt.jl_typeof_str s1.exception
      ++ " in expression\n\t"),
      "\n" ++ rt.jl_string_ptr (rt.jl_get_nth_field s1.exception 0) ++ "\n", ?_⟩
    simp [JuliaException.what, JuliaException.new, String.append_assoc]
  · simp [safe_eval, hq, jl_exception_occurred, State.log, htrace]

/-- C7, on the text `"1 +"`, which the parser of the model runtime rejects. -/
theorem safe_eval_of_parse_failure_witness :
    (jl_quote Julia.model "1 +" (State.start true)).1 = .ok .null ∧
    ∃ e : JuliaException,
      (safe_eval Julia.model "1 +" .null (State.start true)).1 = .error (.JuliaException e) ∧
      e.value = (jl_quote Julia.model "1 +" (State.start true)).2.exception ∧
      (∃ pre post : String, e.what = pre ++ "1 +" ++ post) ∧
      (safe_eval Julia.model "1 +" .null (State.start true)).2.trace
        = (State.start true).trace ++ [.jl_quote "1 +", .jl_exception_occurred] :=
  ⟨by decide, safe_eval_of_parse_failure Julia.model "1 +" .null (State.start true) (by decide)⟩

/-! ## Fixed-width integers -/

theorem IntType.cast_of_inRange (T : IntType) (v : Int) (h : T.InRange v) : T.cast v = v := by
  cases T <;> simp only [IntType.InRange, IntType.cast, IntType.signed, IntType.bits] at h ⊢ <;>
    norm_num at h ⊢ <;> omega

/-- C6: for every fixed-width integer type `T` and every value `v` of `T`, the
conversion to `T` inside `box<T>` leaves `v` as it is, `box<T>(v)` is the
scalar box of type `T` holding `v`, and unboxing it at `T` gives `v` back. -/
theorem box_int_round_trip (T : IntType) (v : Int) (h : T.InRange v) (s : State) :
    T.cast v = v ∧
    ∃ b : Value, (box_int T v s).1 = .ok b ∧ b = .int T v ∧ unbox_int T b = some v := by
  refine ⟨IntType.cast_of_inRange T v h, .int T v, ?_, rfl, ?_⟩
  · simp [box_int, jl_box_int, IntType.cast_of_inRange T v h]
  · simp [unbox_int]

/-- C6, on the least value of `int8_t`. -/
theorem box_int_round_trip_witness :
    IntType.int8.InRange (-128) ∧ IntType.int8.cast (-128) = -128 ∧
    ∃ b : Value, (box_int .int8 (-128) (State.start true)).1 = .ok b ∧
      b = .int .int8 (-128) ∧ unbox_int .int8 b = some (-128) :=
  ⟨by decide, box_int_round_trip .int8 (-128) (by decide) (State.start true)⟩

/-! ## The functions of the model runtime -/

theorem julia_apply_new_dict (K V : TypeDescriptor) (n : Nat) (heap : List Object) :
    julia_apply (.function "jluna" "new_dict") [.type K, .type V, .size n] heap
      = (.ok (.ref heap.length), heap ++ [.dict K V []]) := by
  simp [julia_apply]

theorem julia_apply_new_set (T : TypeDescriptor) (n : Nat) (heap : List Object) :
    julia_apply (.function "jluna" "new_set") [.type T, .size n] heap
      = (.ok (.ref heap.length), heap ++ [.set T []]) := by
  simp [julia_apply]

theorem julia_apply_push (a : Nat) (x : Value) (heap : List Object) (T : TypeDescriptor)
    (elements : List Value) (h : heap[a]? = some (.set T elements)) :
    julia_apply (.function "Base" "push!") [.ref a, x] heap
      = (.ok (.ref a), heap.set a (.set T (set_insert elements x))) := by
  simp [julia_apply, h]

theorem julia_apply_make_complex (re im : Value) (heap : List Object) :
    julia_apply (.function "jluna" "make_complex") [re, im] heap
      = (.ok (.struct (.symbol "Complex") (.cons re (.cons im .nil))), heap) := by
  simp [julia_apply]

/-! ## Empty containers -/

@[simp] theorem GCSentinel.scope_apply {α : Type} (body : Jl α) (s : State) :
    GCSentinel.scope body s
      = ((body { s with sentinels := s.sentinels + 1 }).1,
          { (body { s with sentinels := s.sentinels + 1 }).2 with
            sentinels := (body { s with sentinels := s.sentinels + 1 }).2.sentinels - 1 }) := rfl

/-- C8: boxing an empty vector returns an array of the element type with no
data; boxing an empty map or an empty set against the model runtime returns a
reference, not null, to a new `Dict` of the key and value types, or a new
`Set` of the element type, that has no entries.  The only call made is the
constructor, with size 0: no `setindex!` or `push!` follows. -/
theorem box_of_empty_container {κ α : Type} (Key_t Value_t : TypeDescriptor)
    (box_Key_t : κ → Jl Value) (box_Value_t : α → Jl Value) (s : State) :
    (box_vector Value_t [] s = (.ok (.array Value_t []), s.log (.api "new_array_from_data")) ∧
      Value.array Value_t [] ≠ .null) ∧
    ((box_map Julia.model Key_t Value_t box_Key_t box_Value_t [] s).1
        = .ok (.ref s.heap.length) ∧
      Value.ref s.heap.length ≠ .null ∧
      (box_map Julia.model Key_t Value_t box_Key_t box_Value_t [] s).2.heap
        = s.heap ++ [.dict Key_t Value_t []] ∧
      (box_map Julia.model Key_t Value_t box_Key_t box_Value_t [] s).2.trace
        = s.trace ++ [.jl_call (.function "jluna" "new_dict")
            [.type Key_t, .type Value_t, .size 0]]) ∧
    ((box_set Julia.model Value_t box_Value_t [] s).1 = .ok (.ref s.heap.length) ∧
      Value.ref s.heap.length ≠ .null ∧
      (box_set Julia.model Value_t box_Value_t [] s).2.heap = s.heap ++ [.set Value_t []] ∧
      (box_set Julia.model Value_t box_Value_t [] s).2.trace
        = s.trace ++ [.jl_call (.function "jluna" "new_set") [.type Value_t, .size 0]]) := by
  refine ⟨⟨rfl, by simp⟩, ⟨?_, by simp, ?_, ?_⟩, ⟨?_, by simp, ?_, ?_⟩⟩ <;>
    simp [box_map, box_set, box_map_loop, box_set_loop, unsafe_call, jl_call,
      unsafe_get_function, Julia.model, julia_apply_new_dict, julia_apply_new_set]

/-! ## GC safety scopes -/

/-- A relation between the state a computation starts from and the state it
leaves that holds across `x` and across every continuation holds across the
sequence, whether it returns or throws. -/
theorem Jl.bind_preserves {α β : Type} (R : State → State → Prop)
    (htrans : ∀ a b c, R a b → R b c → R a c) (x : Jl α) (f : α → Jl β)
    (hx : ∀ s, R s (x s).2) (hf : ∀ a s, R s (f a s).2) (s : State) :
    R s ((x >>= f) s).2 := by
  have h1 := hx s
  rw [Jl.bind_apply]
  rcases hxs : x s with ⟨r, s1⟩
  rw [hxs] at h1
  cases r with
  | error e => exact h1
  | ok a => exact htrans _ _ _ h1 (hf a s1)

theorem keepsSentinels_bind {α β : Type} {x : Jl α} {f : α → Jl β} (hx : KeepsSentinels x)
    (hf : ∀ a, KeepsSentinels (f a)) : KeepsSentinels (x >>= f) := fun s =>
  Jl.bind_preserves (fun a b => b.sentinels = a.sentinels) (fun _ _ _ h1 h2 => h2.trans h1)
    x f hx (fun a => hf a) s

theorem keepsSentinels_pure {α : Type} (a : α) : KeepsSentinels (Pure.pure a : Jl α) :=
  fun _ => rfl

theorem keepsSentinels_scope {α : Type} {body : Jl α} (h : KeepsSentinels body) :
    KeepsSentinels (GCSentinel.scope body) := by
  intro s
  simp only [GCSentinel.scope_apply]
  rw [h]
  simp

theorem keepsSentinels_jl_call (rt : Julia) (f : Value) (args : List Value) :
    KeepsSentinels (jl_call rt f args) := fun s => (jl_call_fields rt f args s).2.2.1

theorem keepsSentinels_throw_if_uninitialized : KeepsSentinels throw_if_uninitialized := by
  intro s
  cases h : s.initialized
  · cases hr : s.ready
    · rw [throw_if_uninitialized_of_not_ready s h hr]; rfl
    · rw [throw_if_uninitialized_of_ready s h hr]; rfl
  · rw [throw_if_uninitialized_of_initialized s h]

theorem keepsSentinels_forward_last_exception (rt : Julia) :
    KeepsSentinels (forward_last_exception rt) := by
  unfold jluna.forward_last_exception
  refine keepsSentinels_bind keepsSentinels_throw_if_uninitialized fun _ => ?_
  refine keepsSentinels_bind (fun _ => rfl) fun exc => ?_
  intro s
  split <;> rfl

theorem keepsSentinels_safe_call (rt : Julia) (f : Value) (args : List Value) :
    KeepsSentinels (safe_call rt f args) := by
  unfold jluna.safe_call
  refine keepsSentinels_bind (keepsSentinels_jl_call rt f args) fun _ => ?_
  exact keepsSentinels_bind (keepsSentinels_forward_last_exception rt) fun _ =>
    keepsSentinels_pure _

theorem keepsSentinels_box_complex {α : Type} (rt : Julia) (box_Value_t : α → Jl Value)
    (h : ∀ e, KeepsSentinels (box_Value_t e)) (real imag : α) :
    KeepsSentinels (box_complex rt box_Value_t real imag) := by
  unfold jluna.box_complex
  refine keepsSentinels_bind (h real) fun _ => ?_
  exact keepsSentinels_bind (h imag) fun _ => keepsSentinels_safe_call rt _ _

theorem keepsSentinels_box_string (value : String) : KeepsSentinels (box_string value) := by
  unfold jluna.box_string
  refine keepsSentinels_scope (keepsSentinels_bind (fun _ => rfl) fun array => ?_)
  intro s
  unfold jl_array_to_string
  cases array <;> rfl

theorem keepsSentinels_box_c_str (value : String) : KeepsSentinels (box_c_str value) :=
  keepsSentinels_box_string value

theorem keepsSentinels_box_map_loop {κ α : Type} (rt : Julia) (setindex : Value)
    (box_Key_t : κ → Jl Value) (box_Value_t : α → Jl Value)
    (hK : ∀ k, KeepsSentinels (box_Key_t k)) (hV : ∀ e, KeepsSentinels (box_Value_t e))
    (value : List (κ × α)) :
    KeepsSentinels (box_map_loop rt setindex box_Key_t box_Value_t value) := by
  induction value with
  | nil => exact keepsSentinels_pure _
  | cons pair rest ih =>
      unfold jluna.box_map_loop
      refine keepsSentinels_bind (hV _) fun _ => ?_
      refine keepsSentinels_bind (hK _) fun _ => ?_
      exact keepsSentinels_bind (keepsSentinels_jl_call rt _ _) fun _ => ih

theorem keepsSentinels_box_set_loop {α : Type} (rt : Julia) (push out : Value)
    (box_Value_t : α → Jl Value) (hV : ∀ e, KeepsSentinels (box_Value_t e)) (value : List α) :
    KeepsSentinels (box_set_loop rt push out box_Value_t value) := by
  induction value with
  | nil => exact keepsSentinels_pure _
  | cons e rest ih =>
      unfold jluna.box_set_loop
      refine keepsSentinels_bind (hV _) fun _ => ?_
      exact keepsSentinels_bind (keepsSentinels_jl_call rt _ _) fun _ => ih

theorem keepsSentinels_box_tuple_args (elements : List (Jl Value))
    (hE : ∀ c ∈ elements, KeepsSentinels c) (args : List Value) :
    KeepsSentinels (box_tuple_args elements args) := by
  induction elements generalizing args with
  | nil => exact keepsSentinels_pure _
  | cons c rest ih =>
      unfold jluna.box_tuple_args
      refine keepsSentinels_bind (hE c (List.mem_cons_self _ _)) fun _ => ?_
      exact ih (fun c hc => hE c (List.mem_cons_of_mem _ hc)) _

/-- C9: the overloads of `box` that open a GC safety scope (`std::string`,
`const char*`, map, set, tuple) leave as many live sentinels as they found,
whether they return or throw, provided the boxing of the elements does; an
enclosing scope that is still open is therefore left as it was. -/
theorem box_releases_its_scope {κ α : Type} (rt : Julia) (Key_t Value_t : TypeDescriptor)
    (box_Key_t : κ → Jl Value) (box_Value_t : α → Jl Value) (elements : List (Jl Value))
    (hK : ∀ k s, (box_Key_t k s).2.sentinels = s.sentinels)
    (hV : ∀ e s, (box_Value_t e s).2.sentinels = s.sentinels)
    (hE : ∀ c ∈ elements, ∀ s, (c s).2.sentinels = s.sentinels) (s : State) :
    (∀ value, (box_string value s).2.sentinels = s.sentinels) ∧
    (∀ value, (box_c_str value s).2.sentinels = s.sentinels) ∧
    (∀ value, (box_map rt Key_t Value_t box_Key_t box_Value_t value s).2.sentinels
      = s.sentinels) ∧
    (∀ value, (box_set rt Value_t box_Value_t value s).2.sentinels = s.sentinels) ∧
    (box_tuple rt elements s).2.sentinels = s.sentinels := by
  refine ⟨fun v => keepsSentinels_box_string v s, fun v => keepsSentinels_box_c_str v s,
    fun value => ?_, fun value => ?_, ?_⟩
  · refine keepsSentinels_scope ?_ s
    refine keepsSentinels_bind (keepsSentinels_jl_call rt _ _) fun _ => ?_
    exact keepsSentinels_bind
      (keepsSentinels_box_map_loop rt _ box_Key_t box_Value_t hK hV value) fun _ =>
        keepsSentinels_pure _
  · refine keepsSentinels_scope ?_ s
    refine keepsSentinels_bind (keepsSentinels_jl_call rt _ _) fun _ => ?_
    exact keepsSentinels_bind
      (keepsSentinels_box_set_loop rt _ _ box_Value_t hV value) fun _ => keepsSentinels_pure _
  · refine keepsSentinels_scope ?_ s
    refine keepsSentinels_bind (keepsSentinels_box_tuple_args elements hE []) fun _ => ?_
    exact keepsSentinels_bind (fun _ => rfl) fun _ => (fun _ => rfl)

/-- C9, inside an enclosing scope (one live sentinel) and with a runtime that is
not ready: boxing the set `{1 + 2i}` throws out of the boxing of its element,
and the enclosing sentinel is the only one left. -/
theorem box_releases_its_scope_witness :
    (box_set Julia.model (.complex .float64)
      (fun p : Nat × Nat => box_complex Julia.model box_double p.1 p.2) [(1, 2)]
      { State.start false with sentinels := 1 }).1 = .error .JuliaUninitializedException ∧
    (box_set Julia.model (.complex .float64)
      (fun p : Nat × Nat => box_complex Julia.model box_double p.1 p.2) [(1, 2)]
      { State.start false with sentinels := 1 }).2.sentinels = 1 :=
  ⟨by decide,
    (box_releases_its_scope Julia.model .string (.complex .float64) box_string
      (fun p : Nat × Nat => box_complex Julia.model box_double p.1 p.2)
      [box_bool true, box_string "x"]
      (fun k s => keepsSentinels_box_string k s)
      (fun e s => keepsSentinels_box_complex Julia.model box_double (fun _ _ => rfl) e.1 e.2 s)
      (by
        intro c hc
        simp only [List.mem_cons, List.mem_singleton, List.not_mem_nil, or_false] at hc
        rcases hc with rfl | rfl
        · exact fun _ => rfl
        · exact keepsSentinels_box_string "x")
      { State.start false with sentinels := 1 }).2.2.2.1 [(1, 2)]⟩

/-! ## The map overload -/

theorem jl_call_setindex_of_two (second first : Value) (s : State) :
    jl_call Julia.model (.function "Base" "setindex!") [second, first] s
      = (.ok .null,
          { s with
            exception := MethodError (.function "Base" "setindex!") [second, first]
            trace := s.trace ++ [.jl_call (.function "Base" "setindex!") [second, first]] }) := by
  have h : julia_apply (.function "Base" "setindex!") [second, first] s.heap
      = (.error (MethodError (.function "Base" "setindex!") [second, first]), s.heap) := by
    cases second <;> simp [julia_apply]
  simp [jl_call, Julia.model, h]

theorem box_map_loop_keeps_heap {κ α : Type} (box_Key_t : κ → Jl Value)
    (box_Value_t : α → Jl Value) (hK : BoxesCleanly box_Key_t) (hV : BoxesCleanly box_Value_t) :
    ∀ (value : List (κ × α)) (s : State), s.ready = true →
      (box_map_loop Julia.model (.function "Base" "setindex!") box_Key_t box_Value_t value s).1
        = .ok () ∧
      ∀ a, a < s.heap.length →
        (box_map_loop Julia.model (.function "Base" "setindex!") box_Key_t box_Value_t value
          s).2.heap[a]? = s.heap[a]? := by
  intro value
  induction value with
  | nil => intro s _; exact ⟨rfl, fun _ _ => rfl⟩
  | cons pair rest ih =>
      intro s hready
      obtain ⟨v, s1, _, hv, hr1, hlen1, hframe1, _, _⟩ := hV pair.2 s hready
      obtain ⟨k, s2, _, hk, hr2, hlen2, hframe2, _, _⟩ := hK pair.1 s1 hr1
      have hstep : box_map_loop Julia.model (.function "Base" "setindex!") box_Key_t box_Value_t
          (pair :: rest) s
          = box_map_loop Julia.model (.function "Base" "setindex!") box_Key_t box_Value_t rest
            { s2 with
              exception := MethodError (.function "Base" "setindex!") [v, k]
              trace := s2.trace ++ [.jl_call (.function "Base" "setindex!") [v, k]] } := by
        simp only [box_map_loop, Jl.bind_apply, hv, hk, unsafe_call, jl_call_setindex_of_two]
      obtain ⟨h1, h2⟩ := ih
        { s2 with
          exception := MethodError (.function "Base" "setindex!") [v, k]
          trace := s2.trace ++ [.jl_call (.function "Base" "setindex!") [v, k]] } hr2
      rw [hstep]
      refine ⟨h1, fun a ha => ?_⟩
      have ha1 : a < s1.heap.length := Nat.lt_of_lt_of_le ha hlen1
      rw [h2 a (Nat.lt_of_lt_of_le ha1 hlen2)]
      exact (hframe2 a ha1).trans (hframe1 a ha)

/-- Whatever the map, the dict that the map overload returns has no entries:
the calls of `setindex!` do not have it among their arguments. -/
theorem box_map_stores_nothing {κ α : Type} (Key_t Value_t : TypeDescriptor)
    (box_Key_t : κ → Jl Value) (box_Value_t : α → Jl Value) (hK : BoxesCleanly box_Key_t)
    (hV : BoxesCleanly box_Value_t) (value : List (κ × α)) (s : State)
    (hready : s.ready = true) :
    (box_map Julia.model Key_t Value_t box_Key_t box_Value_t value s).1
      = .ok (.ref s.heap.length) ∧
    (box_map Julia.model Key_t Value_t box_Key_t box_Value_t value s).2.heap[s.heap.length]?
      = some (.dict Key_t Value_t []) := by
  have hnew : jl_call Julia.model (.function "jluna" "new_dict")
      [.type Key_t, .type Value_t, .size value.length] { s with sentinels := s.sentinels + 1 }
      = (.ok (.ref s.heap.length),
          { s with
            sentinels := s.sentinels + 1
            heap := s.heap ++ [.dict Key_t Value_t []]
            exception := .null
            trace := s.trace ++ [.jl_call (.function "jluna" "new_dict")
              [.type Key_t, .type Value_t, .size value.length]] }) := by
    simp [jl_call, Julia.model, julia_apply_new_dict]
  obtain ⟨h1, h2⟩ := box_map_loop_keeps_heap box_Key_t box_Value_t hK hV value
    { s with
      sentinels := s.sentinels + 1
      heap := s.heap ++ [.dict Key_t Value_t []]
      exception := .null
      trace := s.trace ++ [.jl_call (.function "jluna" "new_dict")
        [.type Key_t, .type Value_t, .size value.length]] } hready
  have h3 := h2 s.heap.length (by simp)
  simp only [box_map, unsafe_get_function, GCSentinel.scope_apply, Jl.bind_apply, unsafe_call,
    hnew]
  rcases hl : box_map_loop Julia.model (.function "Base" "setindex!") box_Key_t box_Value_t value
    { s with
      sentinels := s.sentinels + 1
      heap := s.heap ++ [.dict Key_t Value_t []]
      exception := .null
      trace := s.trace ++ [.jl_call (.function "jluna" "new_dict")
        [.type Key_t, .type Value_t, .size value.length]] } with ⟨r, s2⟩
  rw [hl] at h1 h3
  simp only at h1 h3
  subst h1
  refine ⟨rfl, ?_⟩
  simp only [Jl.pure_apply]
  rw [h3]
  exact List.getElem?_concat_length _ _

/-! ## The map overload on `{"a": 1, "b": 2}` -/

/-- The lookup finds what a `setindex!` on the dict itself has stored. -/
theorem dict_lookup_after_setindex :
    dict_lookup
      (julia_apply (.function "Base" "setindex!") [.ref 0, .int .int32 1, .string "a"]
        [.dict .string (.int .int32) []]).2
      (.ref 0) (.string "a") = some (.int .int32 1) := by
  decide

/-- C2 fails on the map `{"a": 1, "b": 2}` of `std::map<std::string, int32_t>`:
each pair is passed to `setindex!` as `(box(v), box(k))`, without the dict, so
the dict that `box` returns has no entries and the lookup of `"a"` and of `"b"`
finds nothing. -/
theorem box_map_returns_an_empty_dict :
    (box_map Julia.model .string (.int .int32) box_string (box_int .int32)
      [("a", 1), ("b", 2)] (State.start true)).1 = .ok (.ref 0) ∧
    (box_map Julia.model .string (.int .int32) box_string (box_int .int32)
      [("a", 1), ("b", 2)] (State.start true)).2.heap = [.dict .string (.int .int32) []] ∧
    dict_lookup
      (box_map Julia.model .string (.int .int32) box_string (box_int .int32)
        [("a", 1), ("b", 2)] (State.start true)).2.heap (.ref 0) (.string "a") = none ∧
    dict_lookup
      (box_map Julia.model .string (.int .int32) box_string (box_int .int32)
        [("a", 1), ("b", 2)] (State.start true)).2.heap (.ref 0) (.string "b") = none := by
  decide

/-- The state that a raising `make_complex` call leaves. -/
theorem raised_eq (s2 : State) (heap : List Object) (exc re im : Value) :
    raised s2 heap exc re im =
      { s2 with
        heap := heap
        exception := exc
        trace := s2.trace ++ [.jl_call (.function "jluna" "make_complex") [re, im]] } := rfl

theorem returnsUnchecked_api {α : Type} (a : α) (name : String) :
    ReturnsUnchecked (fun s => ((.ok a : Except Thrown α), s.log (.api name))) := by
  intro s
  exact ⟨⟨a, rfl⟩, by simp [queries, State.log]⟩

theorem returnsUnchecked_box_int (T : IntType) (value : Int) :
    ReturnsUnchecked (box_int T value) :=
  returnsUnchecked_api _ _

theorem returnsUnchecked_box_string (value : String) : ReturnsUnchecked (box_string value) := by
  intro s
  exact ⟨⟨_, rfl⟩, by simp [queries, State.log, jluna.box_string, unsafe_new_array_from_data,
    jl_array_to_string]⟩

theorem jl_call_push (L : Nat) (x : Value) (s : State) (T : TypeDescriptor)
    (elements : List Value) (h : s.heap[L]? = some (.set T elements)) :
    jl_call Julia.model (.function "Base" "push!") [.ref L, x] s
      = (.ok (.ref L),
          { s with
            heap := s.heap.set L (.set T (set_insert elements x))
            exception := .null
            trace := s.trace ++ [.jl_call (.function "Base" "push!") [.ref L, x]] }) := by
  simp [jl_call, Julia.model, julia_apply_push L x s.heap T elements h]

theorem box_set_loop_pushes {α : Type} (box_Value_t : α → Jl Value)
    (hV : BoxesCleanly box_Value_t) (T : TypeDescriptor) (L : Nat) :
    ∀ (value : List α) (s : State) (elements : List Value), s.ready = true →
      s.heap[L]? = some (.set T elements) →
      ∃ (bs : List Value) (new : List Event),
        (box_set_loop Julia.model (.function "Base" "push!") (.ref L) box_Value_t value s).1
          = .ok () ∧
        List.Forall₂ (fun e b => ∃ s1, (box_Value_t e s1).1 = .ok b) value bs ∧
        (box_set_loop Julia.model (.function "Base" "push!") (.ref L) box_Value_t value s).2.trace
          = s.trace ++ new ∧
        new.filter (Event.targets (.ref L))
          = bs.map (fun b => Event.jl_call (.function "Base" "push!") [.ref L, b]) ∧
        (box_set_loop Julia.model (.function "Base" "push!") (.ref L) box_Value_t value s).2.heap[L]?
          = some (.set T (bs.foldl set_insert elements)) ∧
        (box_set_loop Julia.model (.function "Base" "push!") (.ref L) box_Value_t value s).2.ready
          = true ∧
        s.heap.length ≤
          (box_set_loop Julia.model (.function "Base" "push!") (.ref L) box_Value_t value
            s).2.heap.length ∧
        (∀ a, a < s.heap.length → a ≠ L →
          (box_set_loop Julia.model (.function "Base" "push!") (.ref L) box_Value_t value
            s).2.heap[a]? = s.heap[a]?) ∧
        (∀ a, a < s.heap.length → a ≠ L → ∀ ev ∈ new, Event.targets (.ref a) ev = false) := by
  intro value
  induction value with
  | nil =>
      intro s elements hready hcell
      exact ⟨[], [], rfl, List.Forall₂.nil, by simp [box_set_loop], rfl, by simpa [box_set_loop],
        hready, Nat.le_refl _, fun _ _ _ => rfl, fun _ _ _ ev hev => by simp at hev⟩
  | cons e rest ih =>
      intro s elements hready hcell
      obtain ⟨v, s1, new1, hbox, hr1, hlen1, hframe1, htr1, hno1⟩ := hV e s hready
      have hL : L < s.heap.length := by
        obtain ⟨h, _⟩ := List.getElem?_eq_some.mp hcell
        exact h
      have hcell1 : s1.heap[L]? = some (.set T elements) := (hframe1 L hL).trans hcell
      have hcall := jl_call_push L v s1 T elements hcell1
      have hstep : box_set_loop Julia.model (.function "Base" "push!") (.ref L) box_Value_t
          (e :: rest) s
          = box_set_loop Julia.model (.function "Base" "push!") (.ref L) box_Value_t rest
            { s1 with
              heap := s1.heap.set L (.set T (set_insert elements v))
              exception := .null
              trace := s1.trace ++ [.jl_call (.function "Base" "push!") [.ref L, v]] } := by
        simp only [box_set_loop, Jl.bind_apply, hbox, unsafe_call, hcall]
      have hL1 : L < s1.heap.length := Nat.lt_of_lt_of_le hL hlen1
      obtain ⟨bs, new, h1, h2, h3, h4, h5, h6, h7, h8, h9⟩ :=
        ih { s1 with
              heap := s1.heap.set L (.set T (set_insert elements v))
              exception := .null
              trace := s1.trace ++ [.jl_call (.function "Base" "push!") [.ref L, v]] }
          (set_insert elements v) hr1 (by simp [hL1])
      rw [hstep]
      refine ⟨v :: bs, new1 ++ [.jl_call (.function "Base" "push!") [.ref L, v]] ++ new, h1,
        List.Forall₂.cons ⟨s, by rw [hbox]⟩ h2, ?_, ?_, ?_, h6, ?_, ?_, ?_⟩
      · rw [h3, htr1]
        simp
      · have hnone : new1.filter (Event.targets (.ref L)) = [] := by
          rw [List.filter_eq_nil_iff]
          intro ev hev
          simp [hno1 L hL ev hev]
        simp [List.filter_append, hnone, h4, Event.targets]
      · rw [h5]
        rfl
      · simp only [List.length_set] at h7
        exact Nat.le_trans hlen1 h7
      · intro a ha hne
        have ha1 : a < s1.heap.length := Nat.lt_of_lt_of_le ha hlen1
        rw [h8 a (by simpa using ha1) hne]
        simp only
        rw [List.getElem?_set_ne (Ne.symm hne)]
        exact hframe1 a ha
      · intro a ha hne ev hev
        have ha1 : a < s1.heap.length := Nat.lt_of_lt_of_le ha hlen1
        simp only [List.mem_append, List.mem_singleton] at hev
        rcases hev with (hev | hev) | hev
        · exact hno1 a ha ev hev
        · subst hev
          simp only [Event.targets, decide_eq_false_iff_not, Value.ref.injEq]
          exact Ne.symm hne
        · exact h9 a (by simpa using ha1) hne ev hev

theorem mem_set_insert (elements : List Value) (x v : Value) :
    v ∈ set_insert elements x ↔ v ∈ elements ∨ v = x := by
  unfold set_insert
  split
  · constructor
    · exact Or.inl
    · rintro (h | rfl)
      · exact h
      · assumption
  · simp

theorem mem_foldl_set_insert (bs : List Value) :
    ∀ (elements : List Value) (v : Value),
      v ∈ bs.foldl set_insert elements ↔ v ∈ elements ∨ v ∈ bs := by
  induction bs with
  | nil => intro elements v; simp
  | cons b rest ih =>
      intro elements v
      rw [List.foldl_cons, ih, mem_set_insert, List.mem_cons, or_assoc]

theorem jl_call_new_set (T : TypeDescriptor) (n : Nat) (s : State) :
    jl_call Julia.model (.function "jluna" "new_set") [.type T, .size n] s
      = (.ok (.ref s.heap.length),
          { s with
            heap := s.heap ++ [.set T []]
            exception := .null
            trace := s.trace ++ [.jl_call (.function "jluna" "new_set") [.type T, .size n]] }) := by
  simp [jl_call, Julia.model, julia_apply_new_set]

theorem box_set_of_loop {α : Type} (Value_t : TypeDescriptor) (box_Value_t : α → Jl Value)
    (value : List α) (s : State)
    (h : (box_set_loop Julia.model (.function "Base" "push!") (.ref s.heap.length) box_Value_t
      value (s.in_box_set Value_t value.length)).1 = .ok ()) :
    box_set Julia.model Value_t box_Value_t value s
      = (.ok (.ref s.heap.length),
          { (box_set_loop Julia.model (.function "Base" "push!") (.ref s.heap.length)
              box_Value_t value (s.in_box_set Value_t value.length)).2 with
            sentinels := (box_set_loop Julia.model (.function "Base" "push!")
              (.ref s.heap.length) box_Value_t value
              (s.in_box_set Value_t value.length)).2.sentinels - 1 }) := by
  have hnew : jl_call Julia.model (.function "jluna" "new_set")
      [.type Value_t, .size value.length] { s with sentinels := s.sentinels + 1 }
      = (.ok (.ref s.heap.length), s.in_box_set Value_t value.length) :=
    jl_call_new_set Value_t value.length { s with sentinels := s.sentinels + 1 }
  simp only [box_set, unsafe_get_function, GCSentinel.scope_apply, Jl.bind_apply, unsafe_call,
    hnew]
  rcases hl : box_set_loop Julia.model (.function "Base" "push!") (.ref s.heap.length)
      box_Value_t value (s.in_box_set Value_t value.length) with ⟨r, s2⟩
  rw [hl] at h
  simp only at h
  subst h
  rfl

/-- C10: against the model runtime, when the runtime is ready and `box<Value_t>`
boxes cleanly, `box` of a set first calls `new_set` with the element type and
the size of the set, which makes a new empty set `out`; the calls that follow
with `out` as first argument are exactly one `push!(out, b)` for each element,
in iteration order, `b` being the boxed element; `box` returns `out`, and the
elements of `out` are then exactly the boxed elements. -/
theorem box_set_pushes_each_element {α : Type} (Value_t : TypeDescriptor)
    (box_Value_t : α → Jl Value) (hV : BoxesCleanly box_Value_t) (value : List α) (s : State)
    (hready : s.ready = true) :
    ∃ (bs : List Value) (new : List Event),
      (box_set Julia.model Value_t box_Value_t value s).1 = .ok (.ref s.heap.length) ∧
      s.heap[s.heap.length]? = none ∧
      bs.length = value.length ∧
      List.Forall₂ (fun e b => ∃ s1, (box_Value_t e s1).1 = .ok b) value bs ∧
      (box_set Julia.model Value_t box_Value_t value s).2.trace
        = s.trace
          ++ .jl_call (.function "jluna" "new_set") [.type Value_t, .size value.length] :: new ∧
      new.filter (Event.targets (.ref s.heap.length))
        = bs.map (fun b => Event.jl_call (.function "Base" "push!") [.ref s.heap.length, b]) ∧
      (box_set Julia.model Value_t box_Value_t value s).2.heap[s.heap.length]?
        = some (.set Value_t (bs.foldl set_insert [])) ∧
      ∀ v, v ∈ bs.foldl set_insert [] ↔ v ∈ bs := by
  obtain ⟨bs, new, h1, h2, h3, h4, h5, _, _, _, _⟩ :=
    box_set_loop_pushes box_Value_t hV Value_t s.heap.length value
      (s.in_box_set Value_t value.length) [] hready (List.getElem?_concat_length _ _)
  have hbox := box_set_of_loop Value_t box_Value_t value s h1
  refine ⟨bs, new, ?_, by simp, (List.Forall₂.length_eq h2).symm, h2, ?_, h4, ?_, fun v => ?_⟩
  · rw [hbox]
  · rw [hbox]
    simp only
    rw [h3]
    simp [State.in_box_set]
  · rw [hbox]
    exact h5
  · rw [mem_foldl_set_insert]
    simp

theorem boxesCleanly_api {α : Type} (box_Value_t : α → Jl Value) (boxed : α → Value)
    (name : String) (h : ∀ e s, box_Value_t e s = (.ok (boxed e), s.log (.api name))) :
    BoxesCleanly box_Value_t := by
  intro e s hready
  refine ⟨boxed e, s.log (.api name), [.api name], h e s, hready, Nat.le_refl _,
    fun _ _ => rfl, rfl, ?_⟩
  intro a _ ev hev
  simp only [List.mem_singleton] at hev
  subst hev
  rfl

theorem boxesCleanly_box_int (T : IntType) : BoxesCleanly (box_int T) :=
  boxesCleanly_api _ (fun v => .int T (T.cast v)) ("jl_box_" ++ T.name) fun _ _ => rfl

theorem boxesCleanly_box_double : BoxesCleanly box_double :=
  boxesCleanly_api _ (fun v => .float64 v) "jl_box_float64" fun _ _ => rfl

theorem boxesCleanly_box_set {α : Type} (Value_t : TypeDescriptor) (box_Value_t : α → Jl Value)
    (hV : BoxesCleanly box_Value_t) : BoxesCleanly (box_set Julia.model Value_t box_Value_t) := by
  intro value s hready
  obtain ⟨bs, new, h1, _, h3, _, _, h6, h7, h8, h9⟩ :=
    box_set_loop_pushes box_Value_t hV Value_t s.heap.length value
      (s.in_box_set Value_t value.length) [] hready (List.getElem?_concat_length _ _)
  have hbox := box_set_of_loop Value_t box_Value_t value s h1
  have hlen : (s.in_box_set Value_t value.length).heap.length = s.heap.length + 1 := by
    simp [State.in_box_set]
  refine ⟨.ref s.heap.length, _,
    .jl_call (.function "jluna" "new_set") [.type Value_t, .size value.length] :: new,
    hbox, h6, ?_, ?_, ?_, ?_⟩
  · simp only
    omega
  · intro a ha
    simp only
    rw [h8 a (by omega) (by omega)]
    simp only [State.in_box_set]
    exact List.getElem?_append_left ha
  · simp only
    rw [h3]
    simp [State.in_box_set]
  · intro a ha ev hev
    simp only [List.mem_cons] at hev
    rcases hev with rfl | hev
    · rfl
    · exact h9 a (by omega) (by omega) ev hev

/-- C10, on the set of sets `{{1, 2}, {3}}` of `std::set<std::set<int32_t>>`,
boxed in a new process with the runtime ready. -/
theorem box_set_pushes_each_element_witness :
    ∃ (bs : List Value) (new : List Event),
      (box_set Julia.model (.set (.int .int32)) (box_set Julia.model (.int .int32) (box_int .int32))
        [[1, 2], [3]] (State.start true)).1 = .ok (.ref 0) ∧
      ([] : List Object)[0]? = none ∧
      bs.length = 2 ∧
      List.Forall₂
        (fun e b => ∃ s1, (box_set Julia.model (.int .int32) (box_int .int32) e s1).1 = .ok b)
        [[1, 2], [3]] bs ∧
      (box_set Julia.model (.set (.int .int32)) (box_set Julia.model (.int .int32) (box_int .int32))
        [[1, 2], [3]] (State.start true)).2.trace
        = [] ++ .jl_call (.function "jluna" "new_set") [.type (.set (.int .int32)), .size 2]
          :: new ∧
      new.filter (Event.targets (.ref 0))
        = bs.map (fun b => Event.jl_call (.function "Base" "push!") [.ref 0, b]) ∧
      (box_set Julia.model (.set (.int .int32)) (box_set Julia.model (.int .int32) (box_int .int32))
        [[1, 2], [3]] (State.start true)).2.heap[0]?
        = some (.set (.set (.int .int32)) (bs.foldl set_insert [])) ∧
      ∀ v, v ∈ bs.foldl set_insert [] ↔ v ∈ bs :=
  box_set_pushes_each_element (.set (.int .int32))
    (box_set Julia.model (.int .int32) (box_int .int32))
    (boxesCleanly_box_set (.int .int32) (box_int .int32) (boxesCleanly_box_int .int32))
    [[1, 2], [3]] (State.start true) rfl

theorem boxesCleanly_box_string : BoxesCleanly box_string := by
  intro e s hready
  refine ⟨_, _, [.api "new_array_from_data", .api "jl_array_to_string"], rfl, hready,
    Nat.le_refl _, fun _ _ => rfl, by simp [State.log], ?_⟩
  intro a _ ev hev
  simp only [List.mem_cons, List.mem_singleton, List.not_mem_nil, or_false] at hev
  rcases hev with rfl | rfl <;> rfl

theorem boxesCleanly_box_complex_double :
    BoxesCleanly (fun z : Nat × Nat => jluna.box_complex Julia.model jluna.box_double z.1 z.2) := by
  intro z s hready
  have hcall : ∀ s2 : State,
      jl_call Julia.model (.function "jluna" "make_complex") [.float64 z.1, .float64 z.2] s2
      = (.ok (.struct (.symbol "Complex") (.cons (.float64 z.1) (.cons (.float64 z.2) .nil))),
          { s2 with
            exception := .null
            trace := s2.trace
              ++ [.jl_call (.function "jluna" "make_complex") [.float64 z.1, .float64 z.2]] }) := by
    intro s2
    simp [jl_call, Julia.model, julia_apply_make_complex]
  have hbox : ∀ s0 : State, jluna.box_double z.1 s0 = (.ok (.float64 z.1), s0.log (.api "jl_box_float64"))
      ∧ jluna.box_double z.2 s0 = (.ok (.float64 z.2), s0.log (.api "jl_box_float64")) :=
    fun _ => ⟨rfl, rfl⟩
  cases hinit : s.initialized
  · refine ⟨.struct (.symbol "Complex") (.cons (.float64 z.1) (.cons (.float64 z.2) .nil)),
      { s with
        initialized := true
        exception := .null
        trace := s.trace ++ [.api "jl_box_float64", .api "jl_box_float64",
          .jl_call (.function "jluna" "make_complex") [.float64 z.1, .float64 z.2],
          .jl_is_initialized, .jl_exception_occurred] },
      [.api "jl_box_float64", .api "jl_box_float64",
        .jl_call (.function "jluna" "make_complex") [.float64 z.1, .float64 z.2],
        .jl_is_initialized, .jl_exception_occurred], ?_, hready, Nat.le_refl _,
      fun _ _ => rfl, rfl, ?_⟩
    · simp only [jluna.box_complex, unsafe_get_function, Jl.bind_apply, (hbox _).1, (hbox _).2,
        safe_call, hcall, forward_last_exception]
      rw [throw_if_uninitialized_of_ready _ (by simpa [State.log] using hinit)
        (by simpa [State.log] using hready)]
      simp [jl_exception_occurred, State.log]
    · intro a _ ev hev
      simp only [List.mem_cons, List.mem_singleton, List.not_mem_nil, or_false] at hev
      rcases hev with rfl | rfl | rfl | rfl | rfl <;> simp [Event.targets]
  · refine ⟨.struct (.symbol "Complex") (.cons (.float64 z.1) (.cons (.float64 z.2) .nil)),
      { s with
        exception := .null
        trace := s.trace ++ [.api "jl_box_float64", .api "jl_box_float64",
          .jl_call (.function "jluna" "make_complex") [.float64 z.1, .float64 z.2],
          .jl_exception_occurred] },
      [.api "jl_box_float64", .api "jl_box_float64",
        .jl_call (.function "jluna" "make_complex") [.float64 z.1, .float64 z.2],
        .jl_exception_occurred], ?_, hready, Nat.le_refl _, fun _ _ => rfl, rfl, ?_⟩
    · simp only [jluna.box_complex, unsafe_get_function, Jl.bind_apply, (hbox _).1, (hbox _).2,
        safe_call, hcall, forward_last_exception]
      rw [throw_if_uninitialized_of_initialized _ (by simpa [State.log] using hinit)]
      simp [jl_exception_occurred, State.log]
    · intro a _ ev hev
      simp only [List.mem_cons, List.mem_singleton, List.not_mem_nil, or_false] at hev
      rcases hev with rfl | rfl | rfl | rfl <;> simp [Event.targets]

/-- The set `{5, 7}` of `std::set<int32_t>`, boxed in a new process with the
runtime ready: the result, the set on the heap, and every use of the runtime. -/
theorem box_set_of_two_elements :
    box_set Julia.model (.int .int32) (box_int .int32) [5, 7] (State.start true)
      = (.ok (.ref 0),
          { State.start true with
            heap := [.set (.int .int32) [.int .int32 5, .int .int32 7]]
            trace := [.jl_call (.function "jluna" "new_set") [.type (.int .int32), .size 2],
              .api "jl_box_int32",
              .jl_call (.function "Base" "push!") [.ref 0, .int .int32 5],
              .api "jl_box_int32",
              .jl_call (.function "Base" "push!") [.ref 0, .int .int32 7]] }) := by
  decide

end jluna
